import Mathlib

/-!
Verification of the squelch-gated recorder (`record.py`).

The signal math (`bytes_to_float`, `frame_to_wave`, `squelch`) and the
per-frame gating state machine of `record` are embedded as executable
Lean definitions.  A PCM frame is a `List UInt8`; normalized samples are
rationals (every value the code produces is of the form `s / 32768` with
`s` an integer, so rational arithmetic models the Python float
computations exactly).  The voice classifier is an external collaborator:
each step takes the Boolean answer it would give for the frame.
-/

namespace SquelchRecorder

/-- Error raised from the squelch path when a frame decodes to zero
samples (Python: `max([])`), named `EmptyFrame` in the design. -/
inductive FrameError where
  | EmptyFrame
deriving DecidableEq, Repr

instance {ε α : Type} [DecidableEq ε] [DecidableEq α] : DecidableEq (Except ε α) := fun
  | .error e, .error f =>
    if h : e = f then .isTrue (by rw [h]) else .isFalse (fun hh => h (Except.error.inj hh))
  | .error _, .ok _ => .isFalse (fun hh => Except.noConfusion hh)
  | .ok _, .error _ => .isFalse (fun hh => Except.noConfusion hh)
  | .ok a, .ok b =>
    if h : a = b then .isTrue (by rw [h]) else .isFalse (fun hh => h (Except.ok.inj hh))

/-- Unsigned little-endian value of a byte string
(the magnitude part of Python `int.from_bytes(bytes, "little")`). -/
def uintFromBytesLE (bs : List UInt8) : ℕ :=
  bs.foldr (fun b acc => b.toNat + 256 * acc) 0

/-- Signed little-endian value of a byte string:
Python `int.from_bytes(bytes, "little", signed=True)`.  A value with the
top bit of the last byte set is shifted down by `2 ^ (8 * n)`. -/
def intFromBytesLE (bs : List UInt8) : ℤ :=
  let u := uintFromBytesLE bs
  if 2 * u < 2 ^ (8 * bs.length) then (u : ℤ) else (u : ℤ) - 2 ^ (8 * bs.length)

/-- The function `bytes_to_float` from `record.py`:
`int.from_bytes(bytes, "little", signed=True) / (1 << 15)`.
Total, as in Python: `int.from_bytes` accepts byte strings of any
length, including the empty one.  Written with `Rat.divInt` so that the
kernel can evaluate it; `bytes_to_float_eq_div` restates it as the
division `s / 32768`. -/
def bytes_to_float (bs : List UInt8) : ℚ :=
  Rat.divInt (intFromBytesLE bs) 32768

/-- The function `frame_to_wave` from `record.py`:
`[bytes_to_float(frame[i:i+2]) for i in range(0, len(frame) // 2, 2)]`.
`range(0, n, 2)` has `(n + 1) / 2` elements `0, 2, 4, …`, and the slice
`frame[i:i+2]` is `(frame.drop i).take 2`. -/
def frame_to_wave (frame : List UInt8) : List ℚ :=
  (List.range' 0 ((frame.length / 2 + 1) / 2) 2).map
    (fun i => bytes_to_float ((frame.drop i).take 2))

/-- The function `squelch` from `record.py`: `max(frame_to_wave(frame)) >= threshold`.
Python `max` on an empty sequence raises (`EmptyFrame` in the design's
taxonomy); on a nonempty list it is a left fold of binary `max`. -/
def squelch (frame : List UInt8) (threshold : ℚ) : Except FrameError Bool :=
  match frame_to_wave frame with
  | [] => .error .EmptyFrame
  | x :: xs => .ok (decide (xs.foldl max x ≥ threshold))

/-- Events the loop logs: "SQL open", "Voice detected", "SQL closed". -/
inductive Event where
  | SquelchOpened
  | VoiceDetected
  | SquelchClosed
deriving DecidableEq, Repr

/-- The per-session configuration values that the gating logic of
`record` reads: `use_vad`, `frame_duration`, `sql_duration`. -/
structure Config where
  useVad : Bool
  frameDuration : ℕ
  sqlDuration : ℕ
deriving DecidableEq, Repr

/-- The mutable loop state of `record`:
`has_voice`, `sql_open`, `sql_open_time` (lines 75–77). -/
structure GateState where
  hasVoice : Bool
  sqlOpen : Bool
  sqlOpenTime : ℕ
deriving DecidableEq, Repr

/-- The state at session start: `has_voice = False`, `sql_open = False`,
`sql_open_time = 0`. -/
def initState : GateState := ⟨false, false, 0⟩

/-- What one loop iteration produces besides the new state: whether the
frame was written to the sink, whether `vad.is_speech` was called, and
the events logged this frame (in log order). -/
structure StepResult where
  state : GateState
  emit : Bool
  vadQueried : Bool
  events : List Event
deriving DecidableEq, Repr

/-- The body of one iteration of the `while True` loop of `record`
(lines 82–103), given the already-computed squelch decision `sq` for the
frame.  `speech` is the answer `vad.is_speech(frame, rate)` would give;
the short-circuit `use_vad and not has_voice and vad.is_speech(...)`
only consults it when `use_vad` holds and voice is not yet confirmed,
which `vadQueried` records.  Lines 82–86 open the gate and zero the hang
timer; lines 88–89 skip the frame when the gate is closed; lines 91–96
run the voice check and the sink write; lines 98–103 advance the hang
timer or close the gate. -/
def stepPure (cfg : Config) (speech : Bool) (s : GateState) (sq : Bool) : StepResult :=
  let openEvents := if sq && !s.sqlOpen then [Event.SquelchOpened] else []
  let s1 : GateState := if sq then { s with sqlOpen := true, sqlOpenTime := 0 } else s
  if !s1.sqlOpen then
    { state := s1, emit := false, vadQueried := false, events := openEvents }
  else
    let queried := cfg.useVad && !s1.hasVoice
    let voiceNow := queried && speech
    let voiceEvents := if voiceNow then [Event.VoiceDetected] else []
    let hasVoice2 := s1.hasVoice || voiceNow
    let emit := !cfg.useVad || (cfg.useVad && hasVoice2)
    if s1.sqlOpenTime < cfg.sqlDuration then
      { state := ⟨hasVoice2, true, s1.sqlOpenTime + cfg.frameDuration⟩,
        emit := emit, vadQueried := queried,
        events := openEvents ++ voiceEvents }
    else
      { state := ⟨false, false, s1.sqlOpenTime⟩,
        emit := emit, vadQueried := queried,
        events := openEvents ++ voiceEvents ++ [Event.SquelchClosed] }

/-- One iteration of the loop of `record` (lines 79–103) on an
already-read frame: evaluate the squelch condition (propagating its
failure uncaught, as Python does) and then run the pure loop body. -/
def step (cfg : Config) (threshold : ℚ) (speech : Bool) (s : GateState)
    (frame : List UInt8) : Except FrameError StepResult := do
  let sq ← squelch frame threshold
  pure (stepPure cfg speech s sq)

/-- Run the loop over a list of (frame, classifier answer) pairs,
collecting for each frame whether it was written and the events logged,
together with the final state.  A squelch failure aborts the run, as the
uncaught exception aborts the Python loop. -/
def run (cfg : Config) (threshold : ℚ) :
    GateState → List (List UInt8 × Bool) → Except FrameError (GateState × List (Bool × List Event))
  | s, [] => .ok (s, [])
  | s, (frame, speech) :: rest => do
    let r ← step cfg threshold speech s frame
    let (s', outs) ← run cfg threshold r.state rest
    pure (s', (r.emit, r.events) :: outs)

/-- States reachable from the session-start state by any sequence of
frames and classifier answers on which the loop does not fail. -/
inductive Reachable (cfg : Config) (threshold : ℚ) : GateState → Prop where
  | init : Reachable cfg threshold initState
  | next {s : GateState} {speech : Bool} {frame : List UInt8} {r : StepResult} :
      Reachable cfg threshold s → step cfg threshold speech s frame = .ok r →
      Reachable cfg threshold r.state

/-- A frame whose single decoded sample is `16384 / 32768 = 1/2`. -/
def loudFrame : List UInt8 := [0x00, 0x40, 0x00, 0x00]

/-- A frame whose single decoded sample is `0`. -/
def silentFrame : List UInt8 := [0x00, 0x00, 0x00, 0x00]

/-- The scenario configuration: voice gate off, 30 ms frames, 300 ms hang time. -/
def cfgNoVad : Config := ⟨false, 30, 300⟩

/-- A voice-gated configuration: voice gate on, 30 ms frames, 300 ms hang time. -/
def cfgVad : Config := ⟨true, 30, 300⟩

lemma step_ok (cfg : Config) (t : ℚ) (sp : Bool) (s : GateState) (frame : List UInt8)
    (sq : Bool) (hsq : squelch frame t = .ok sq) :
    step cfg t sp s frame = .ok (stepPure cfg sp s sq) := by
  unfold step
  rw [hsq]
  rfl

lemma run_cons (cfg : Config) (t : ℚ) (s : GateState) (f : List UInt8) (sp : Bool)
    (rest : List (List UInt8 × Bool)) :
    run cfg t s ((f, sp) :: rest) =
      (step cfg t sp s f).bind (fun r =>
        (run cfg t r.state rest).bind (fun p =>
          .ok (p.1, (r.emit, r.events) :: p.2))) := rfl

lemma foldl_max_mem : ∀ (xs : List ℚ) (x : ℚ), xs.foldl max x ∈ x :: xs
  | [], _ => by simp
  | y :: ys, x => by
    have h := foldl_max_mem ys (max x y)
    simp only [List.foldl_cons]
    rcases List.mem_cons.mp h with h1 | h1
    · rcases max_choice x y with hm | hm
      · rw [h1, hm]; exact List.mem_cons_self _ _
      · rw [h1, hm]; exact List.mem_cons_of_mem _ (List.mem_cons_self _ _)
    · exact List.mem_cons_of_mem _ (List.mem_cons_of_mem _ h1)

lemma le_foldl_max : ∀ (xs : List ℚ) (x q : ℚ), q ∈ x :: xs → q ≤ xs.foldl max x
  | [], x, q => by
    intro h
    simp only [List.mem_singleton] at h
    simp [h]
  | y :: ys, x, q => by
    intro h
    simp only [List.foldl_cons]
    rcases List.mem_cons.mp h with h1 | h1
    · rw [h1]
      exact le_trans (le_max_left x y)
        (le_foldl_max ys (max x y) (max x y) (List.mem_cons_self _ _))
    · rcases List.mem_cons.mp h1 with h2 | h2
      · rw [h2]
        exact le_trans (le_max_right x y)
          (le_foldl_max ys (max x y) (max x y) (List.mem_cons_self _ _))
      · exact le_foldl_max ys (max x y) q (List.mem_cons_of_mem _ h2)

/-- C4: for every frame whose decoded sample sequence is non-empty and
every linear threshold `t`, `squelch` succeeds and returns true iff the
maximum decoded sample (signed maximum, not absolute value) is `≥ t`;
a frame whose peak sample equals `t` exactly yields true, and a frame
decoding to all-zero samples yields false for every `t > 0`. -/
theorem squelch_iff_max_ge (frame : List UInt8) (t : ℚ)
    (h : frame_to_wave frame ≠ []) :
    ∃ m : ℚ, m ∈ frame_to_wave frame ∧ (∀ q ∈ frame_to_wave frame, q ≤ m) ∧
      squelch frame t = .ok (decide (m ≥ t)) ∧
      (m = t → squelch frame t = .ok true) ∧
      ((∀ q ∈ frame_to_wave frame, q = 0) → 0 < t → squelch frame t = .ok false) := by
  obtain ⟨x, xs, hw⟩ : ∃ x xs, frame_to_wave frame = x :: xs := by
    cases hfw : frame_to_wave frame with
    | nil => exact absurd hfw h
    | cons x xs => exact ⟨x, xs, rfl⟩
  have hmem : xs.foldl max x ∈ frame_to_wave frame := by
    rw [hw]; exact foldl_max_mem xs x
  have hsq : squelch frame t = .ok (decide (xs.foldl max x ≥ t)) := by
    unfold squelch
    rw [hw]
  refine ⟨xs.foldl max x, hmem, ?_, hsq, ?_, ?_⟩
  · intro q hq
    rw [hw] at hq
    exact le_foldl_max xs x q hq
  · intro hm
    rw [hsq, hm]
    simp
  · intro hz ht
    have hm0 : xs.foldl max x = 0 := hz _ hmem
    rw [hsq, hm0]
    simp [not_le.mpr ht]

/-- Witness for `squelch_iff_max_ge` at a concrete loud frame and
threshold `1/2`. -/
theorem squelch_iff_max_ge_witness :
    ∃ m : ℚ, m ∈ frame_to_wave loudFrame ∧ (∀ q ∈ frame_to_wave loudFrame, q ≤ m) ∧
      squelch loudFrame (mkRat 1 2) = .ok (decide (m ≥ mkRat 1 2)) ∧
      (m = mkRat 1 2 → squelch loudFrame (mkRat 1 2) = .ok true) ∧
      ((∀ q ∈ frame_to_wave loudFrame, q = 0) → 0 < mkRat 1 2 →
        squelch loudFrame (mkRat 1 2) = .ok false) :=
  squelch_iff_max_ge loudFrame (mkRat 1 2) (by decide)

/-- C5: a frame that decodes to zero samples makes the squelch check
fail with `EmptyFrame` instead of returning false, and every frame of
fewer than two bytes decodes to zero samples. -/
theorem squelch_empty_frame (frame : List UInt8) (t : ℚ) :
    (frame_to_wave frame = [] → squelch frame t = .error .EmptyFrame) ∧
    (frame.length ≤ 1 → frame_to_wave frame = []) := by
  constructor
  · intro h
    unfold squelch
    rw [h]
  · intro h
    unfold frame_to_wave
    rw [Nat.div_eq_of_lt (by omega)]
    rfl

/-- Witness for `squelch_empty_frame`: the zero-length frame fails with
`EmptyFrame` for threshold 0. -/
theorem squelch_empty_frame_witness :
    squelch ([] : List UInt8) 0 = .error .EmptyFrame :=
  (squelch_empty_frame [] 0).1 rfl

lemma take_two_of_take_eq {α : Type} (l l' : List α) (N i : ℕ)
    (h : l.take N = l'.take N) (hi : i + 2 ≤ N) :
    (l.drop i).take 2 = (l'.drop i).take 2 := by
  have h2 : ∀ m : List α, (m.drop i).take 2 = ((m.take N).drop i).take 2 := by
    intro m
    rw [List.drop_take, List.take_take, min_eq_left (by omega)]
  rw [h2 l, h2 l', h]

lemma frame_to_wave_length (frame : List UInt8) :
    (frame_to_wave frame).length = (frame.length / 2 + 1) / 2 := by
  simp [frame_to_wave]

/-- C6 (amended): `frameToSamples` produces `ceil(floor(len/2)/2)`
samples, one per 2-byte group at byte offsets `0, 2, 4, …` strictly
below `floor(len/2)`, and the result depends only on the first
`floor(len/2) + 1` bytes of the frame — so bytes strictly beyond offset
`floor(len/2)` never influence it, but the byte at offset exactly
`floor(len/2)` can (see the counterexample). -/
theorem frame_to_wave_first_half (frame : List UInt8) :
    (frame_to_wave frame).length = (frame.length / 2 + 1) / 2 ∧
    (∀ k (hk : k < (frame_to_wave frame).length),
      2 * k < frame.length / 2 ∧
      (frame_to_wave frame).get ⟨k, hk⟩ = bytes_to_float ((frame.drop (2 * k)).take 2)) ∧
    (∀ g : List UInt8, g.length = frame.length →
      g.take (frame.length / 2 + 1) = frame.take (frame.length / 2 + 1) →
      frame_to_wave g = frame_to_wave frame) := by
  refine ⟨frame_to_wave_length frame, ?_, ?_⟩
  · intro k hk
    have hlen := frame_to_wave_length frame
    constructor
    · rw [hlen] at hk
      omega
    · simp only [frame_to_wave, List.get_eq_getElem, List.getElem_map, List.getElem_range']
      rw [Nat.zero_add]
  · intro g hglen htake
    unfold frame_to_wave
    rw [hglen]
    apply List.map_congr_left
    intro i hi
    rw [List.mem_range'] at hi
    obtain ⟨k, hk, hik⟩ := hi
    have hle : i + 2 ≤ frame.length / 2 + 1 := by omega
    exact congrArg bytes_to_float (take_two_of_take_eq g frame _ i htake hle)

/-- Witness for `frame_to_wave_first_half`: changing only the last byte
of the concrete loud frame (offset 3, beyond `floor(4/2) = 2`) does not
change the decoded samples. -/
theorem frame_to_wave_first_half_witness :
    frame_to_wave [0x00, 0x40, 0x00, 0x63] = frame_to_wave loudFrame :=
  (frame_to_wave_first_half loudFrame).2.2 [0x00, 0x40, 0x00, 0x63] (by decide) (by decide)

/-- Counterexample to C6 as stated: two frames of equal length agreeing
on the whole first half of their byte range (offsets below
`floor(len/2) = 1`) decode differently, because the 2-byte group at
offset 0 also reads the byte at offset 1, which lies in the second
half. -/
theorem frame_to_wave_second_half_cex :
    ([0x00, 0x00] : List UInt8).take 1 = ([0x00, 0x01] : List UInt8).take 1 ∧
    ([0x00, 0x00] : List UInt8).length = ([0x00, 0x01] : List UInt8).length ∧
    frame_to_wave [0x00, 0x00] ≠ frame_to_wave [0x00, 0x01] := by decide

lemma bytes_to_float_eq_div (bs : List UInt8) :
    bytes_to_float bs = (intFromBytesLE bs : ℚ) / 32768 := by
  unfold bytes_to_float
  rw [Rat.divInt_eq_div]
  norm_num

/-- C7 (amended): `sampleToFloat` on fewer than two bytes does not fail:
it returns the little-endian signed value of the bytes it was given
divided by 32768 — `0` for the empty string, and the signed 8-bit value
over 32768 for a single byte. -/
theorem bytes_to_float_short (b : UInt8) :
    bytes_to_float ([] : List UInt8) = 0 ∧
    bytes_to_float [b] =
      (((if b.toNat < 128 then (b.toNat : ℤ) else (b.toNat : ℤ) - 256) : ℤ) : ℚ) / 32768 := by
  constructor
  · decide
  · rw [bytes_to_float_eq_div]
    have hint : intFromBytesLE [b] =
        (if b.toNat < 128 then (b.toNat : ℤ) else (b.toNat : ℤ) - 256) := by
      have hb : b.toNat < 256 := b.toNat_lt_size
      unfold intFromBytesLE uintFromBytesLE
      simp only [List.foldr_cons, List.foldr_nil, List.length_cons, List.length_nil]
      norm_num
      split_ifs <;> omega
    rw [hint]

/-- Counterexample to C7 as stated: `sampleToFloat` applied to fewer
than 2 bytes returns a value instead of failing — `0` on the empty byte
string and `-56/32768` on the single byte `200` (read as a signed 8-bit
integer). -/
theorem bytes_to_float_short_cex :
    bytes_to_float ([] : List UInt8) = 0 ∧
    bytes_to_float [200] = mkRat (-56) 32768 := by decide

lemma int2_bounds (b0 b1 : UInt8) :
    -32768 ≤ intFromBytesLE [b0, b1] ∧ intFromBytesLE [b0, b1] ≤ 32767 := by
  have h0 : b0.toNat < 256 := b0.toNat_lt_size
  have h1 : b1.toNat < 256 := b1.toNat_lt_size
  unfold intFromBytesLE uintFromBytesLE
  simp only [List.foldr_cons, List.foldr_nil, List.length_cons, List.length_nil]
  norm_num
  split_ifs <;> constructor <;> omega

/-- C8: `sampleToFloat` on two bytes is the little-endian signed 16-bit
value `s` divided by 32768; `s` lies in `[-32768, 32767]`, the result
lies in `[-1, 1]`, the map is monotone in `s`, the top value `32767`
maps to `32767/32768 ≈ 0.999969`, and `-32768` maps to `-1` exactly. -/
theorem bytes_to_float_sint16 (b0 b1 : UInt8) :
    (-32768 ≤ intFromBytesLE [b0, b1] ∧ intFromBytesLE [b0, b1] ≤ 32767) ∧
    bytes_to_float [b0, b1] = (intFromBytesLE [b0, b1] : ℚ) / 32768 ∧
    (-1 ≤ bytes_to_float [b0, b1] ∧ bytes_to_float [b0, b1] ≤ 1) ∧
    (∀ c0 c1 : UInt8, intFromBytesLE [b0, b1] ≤ intFromBytesLE [c0, c1] →
      bytes_to_float [b0, b1] ≤ bytes_to_float [c0, c1]) ∧
    bytes_to_float [0xFF, 0x7F] = (32767 : ℚ) / 32768 ∧
    |bytes_to_float [0xFF, 0x7F] - 999969 / 1000000| < 1 / 1000000 ∧
    bytes_to_float [0x00, 0x80] = -1 := by
  obtain ⟨hlb, hub⟩ := int2_bounds b0 b1
  have hdiv := bytes_to_float_eq_div [b0, b1]
  have hmax : intFromBytesLE [0xFF, 0x7F] = 32767 := by decide
  have hmin : intFromBytesLE [0x00, 0x80] = -32768 := by decide
  refine ⟨⟨hlb, hub⟩, hdiv, ⟨?_, ?_⟩, ?_, ?_, ?_, ?_⟩
  · rw [hdiv, show (-1 : ℚ) = (-32768) / 32768 by norm_num]
    exact (div_le_div_iff_of_pos_right (by norm_num)).mpr (by exact_mod_cast hlb)
  · rw [hdiv]
    calc (intFromBytesLE [b0, b1] : ℚ) / 32768 ≤ 32767 / 32768 :=
          (div_le_div_iff_of_pos_right (by norm_num)).mpr (by exact_mod_cast hub)
      _ ≤ 1 := by norm_num
  · intro c0 c1 hle
    rw [hdiv, bytes_to_float_eq_div]
    exact (div_le_div_iff_of_pos_right (by norm_num)).mpr (by exact_mod_cast hle)
  · rw [bytes_to_float_eq_div, hmax]
    norm_num
  · rw [bytes_to_float_eq_div, hmax]
    rw [abs_sub_lt_iff]
    constructor <;> norm_num
  · rw [bytes_to_float_eq_div, hmin]
    norm_num

/-- Witness for `bytes_to_float_sint16`: monotonicity at the concrete
pair of samples 0 and 32767. -/
theorem bytes_to_float_sint16_witness :
    bytes_to_float [0x00, 0x00] ≤ bytes_to_float [0xFF, 0x7F] :=
  (bytes_to_float_sint16 0x00 0x00).2.2.2.1 0xFF 0x7F (by decide)

lemma step_error (cfg : Config) (t : ℚ) (sp : Bool) (s : GateState) (frame : List UInt8)
    (e : FrameError) (hsq : squelch frame t = .error e) :
    step cfg t sp s frame = .error e := by
  unfold step
  rw [hsq]
  rfl

/-- C9: with the gate closed and a frame that does not satisfy the
squelch condition, the loop skips the frame: nothing is written, the
voice classifier is not queried, no event is logged, and the whole state
is unchanged. -/
theorem step_closed_noop (cfg : Config) (t : ℚ) (sp : Bool) (s : GateState)
    (frame : List UInt8) (hclosed : s.sqlOpen = false)
    (hsq : squelch frame t = .ok false) :
    step cfg t sp s frame =
      .ok { state := s, emit := false, vadQueried := false, events := [] } := by
  rw [step_ok cfg t sp s frame false hsq]
  unfold stepPure
  simp [hclosed]

/-- Witness for `step_closed_noop` at the session-start state and a
silent frame. -/
theorem step_closed_noop_witness :
    step cfgNoVad (mkRat 1 2) false initState silentFrame =
      .ok { state := initState, emit := false, vadQueried := false, events := [] } :=
  step_closed_noop cfgNoVad (mkRat 1 2) false initState silentFrame rfl (by decide)

/-- C3: on a frame processed with the gate open (already open, or opened
by this frame), the frame is written iff voice gating is off or voice is
confirmed, counting a confirmation made on this very frame;
`VoiceDetected` is logged exactly when this frame confirms voice; and
voice confirmation persists together with the open gate until the step
that logs `SquelchClosed` clears both. -/
theorem step_open_emit (cfg : Config) (t : ℚ) (sp : Bool) (s : GateState)
    (frame : List UInt8) (sq : Bool) (r : StepResult)
    (hsq : squelch frame t = .ok sq) (hopen : (s.sqlOpen || sq) = true)
    (hr : step cfg t sp s frame = .ok r) :
    r.emit = (!cfg.useVad || s.hasVoice || sp) ∧
    (Event.VoiceDetected ∈ r.events ↔ cfg.useVad = true ∧ s.hasVoice = false ∧ sp = true) ∧
    (Event.SquelchClosed ∈ r.events → r.state.hasVoice = false ∧ r.state.sqlOpen = false) ∧
    (Event.SquelchClosed ∉ r.events →
      r.state.hasVoice = (s.hasVoice || (cfg.useVad && sp)) ∧ r.state.sqlOpen = true) := by
  rw [step_ok cfg t sp s frame sq hsq] at hr
  obtain rfl : r = stepPure cfg sp s sq := (Except.ok.inj hr).symm
  obtain ⟨hv, so, time⟩ := s
  obtain ⟨uv, fd, dur⟩ := cfg
  unfold stepPure
  cases sq <;> cases so <;> cases uv <;> cases hv <;> cases sp <;>
    simp_all <;> split_ifs <;> simp_all

/-- Witness for `step_open_emit`: the first loud speech frame under the
voice-gated configuration is written and logs `VoiceDetected`. -/
theorem step_open_emit_witness :
    ∃ r : StepResult, step cfgVad (mkRat 1 2) true initState loudFrame = .ok r ∧
      r.emit = true ∧ Event.VoiceDetected ∈ r.events := by
  refine ⟨⟨⟨true, true, 30⟩, true, true, [Event.SquelchOpened, Event.VoiceDetected]⟩,
    by decide, ?_, ?_⟩
  · exact (step_open_emit cfgVad (mkRat 1 2) true initState loudFrame true
      ⟨⟨true, true, 30⟩, true, true, [Event.SquelchOpened, Event.VoiceDetected]⟩
      (by decide) (by decide) (by decide)).1
  · exact (step_open_emit cfgVad (mkRat 1 2) true initState loudFrame true
      ⟨⟨true, true, 30⟩, true, true, [Event.SquelchOpened, Event.VoiceDetected]⟩
      (by decide) (by decide) (by decide)).2.1.mpr ⟨rfl, rfl, rfl⟩

lemma stepPure_sq_true (cfg : Config) (sp : Bool) (s : GateState)
    (hdur : 0 < cfg.sqlDuration) :
    (stepPure cfg sp s true).state.sqlOpen = true ∧
    (stepPure cfg sp s true).state.sqlOpenTime = cfg.frameDuration ∧
    Event.SquelchClosed ∉ (stepPure cfg sp s true).events := by
  obtain ⟨hv, so, time⟩ := s
  obtain ⟨uv, fd, dur⟩ := cfg
  simp only at hdur
  unfold stepPure
  cases so <;> cases uv <;> cases hv <;> cases sp <;> simp_all [hdur]

/-- C2 (amended): a frame satisfying the squelch condition resets the
hang timer mid-step regardless of the previous state (so the post-step
timer is exactly one frame duration), and — provided the configured hang
time is positive — the gate is open after it and after every step of a
run of frames all satisfying the squelch condition, with no
`SquelchClosed` logged anywhere in the run.  (With `sqlDuration = 0` a
qualifying frame closes the gate in the same step, see the
counterexample.) -/
theorem squelch_open_resets_timer (cfg : Config) (t : ℚ) (hdur : 0 < cfg.sqlDuration) :
    (∀ (s : GateState) (sp : Bool) (frame : List UInt8) (r : StepResult),
      squelch frame t = .ok true → step cfg t sp s frame = .ok r →
      r.state.sqlOpen = true ∧ r.state.sqlOpenTime = cfg.frameDuration ∧
      Event.SquelchClosed ∉ r.events) ∧
    (∀ (s : GateState) (inputs : List (List UInt8 × Bool))
      (out : GateState × List (Bool × List Event)),
      (∀ f sp, (f, sp) ∈ inputs → squelch f t = .ok true) →
      run cfg t s inputs = .ok out →
      (inputs ≠ [] → out.1.sqlOpen = true) ∧
      (∀ p ∈ out.2, Event.SquelchClosed ∉ p.2)) := by
  have hstep : ∀ (s : GateState) (sp : Bool) (frame : List UInt8) (r : StepResult),
      squelch frame t = .ok true → step cfg t sp s frame = .ok r →
      r.state.sqlOpen = true ∧ r.state.sqlOpenTime = cfg.frameDuration ∧
      Event.SquelchClosed ∉ r.events := by
    intro s sp frame r hsq hr
    rw [step_ok cfg t sp s frame true hsq] at hr
    obtain rfl : r = stepPure cfg sp s true := (Except.ok.inj hr).symm
    exact stepPure_sq_true cfg sp s hdur
  refine ⟨hstep, ?_⟩
  intro s inputs
  induction inputs generalizing s with
  | nil =>
    intro out _ hrun
    obtain rfl : (s, ([] : List (Bool × List Event))) = out := Except.ok.inj hrun
    simp
  | cons hd rest ih =>
    obtain ⟨f, sp⟩ := hd
    intro out hall hrun
    have hsq : squelch f t = .ok true := hall f sp (List.mem_cons_self _ _)
    rw [run_cons, step_ok cfg t sp s f true hsq] at hrun
    simp only [Except.bind] at hrun
    cases hrest : run cfg t (stepPure cfg sp s true).state rest with
    | error e =>
      rw [hrest] at hrun
      simp at hrun
    | ok q =>
      rw [hrest] at hrun
      simp only [Except.bind] at hrun
      obtain rfl :
          (q.1, ((stepPure cfg sp s true).emit, (stepPure cfg sp s true).events) :: q.2)
            = out := Except.ok.inj hrun
      have hrests := ih (stepPure cfg sp s true).state q
        (fun f' sp' h' => hall f' sp' (List.mem_cons_of_mem _ h')) hrest
      constructor
      · intro _
        cases rest with
        | nil =>
          obtain rfl : ((stepPure cfg sp s true).state, ([] : List (Bool × List Event))) = q :=
            Except.ok.inj hrest
          exact (stepPure_sq_true cfg sp s hdur).1
        | cons hd' rest' =>
          exact hrests.1 (by simp)
      · intro p hp
        rcases List.mem_cons.mp hp with heq | hp'
        · rw [heq]
          exact (stepPure_sq_true cfg sp s hdur).2.2
        · exact hrests.2 p hp'

/-- Witness for `squelch_open_resets_timer` at the concrete loud frame
from the session-start state. -/
theorem squelch_open_resets_timer_witness :
    (⟨false, true, 30⟩ : GateState).sqlOpen = true ∧
    (⟨false, true, 30⟩ : GateState).sqlOpenTime = cfgNoVad.frameDuration ∧
    Event.SquelchClosed ∉ [Event.SquelchOpened] :=
  (squelch_open_resets_timer cfgNoVad (mkRat 1 2) (by decide)).1 initState false loudFrame
    ⟨⟨false, true, 30⟩, true, false, [Event.SquelchOpened]⟩ (by decide) (by decide)

/-- Counterexample to C2 as stated: with `sqlDuration = 0` a frame that
satisfies the squelch condition opens the gate and closes it again in
the same step, logging `SquelchClosed` — so the claim does not hold for
every configuration. -/
theorem squelch_open_zero_duration_cex :
    squelch loudFrame (mkRat 1 2) = .ok true ∧
    step ⟨false, 30, 0⟩ (mkRat 1 2) false initState loudFrame =
      .ok ⟨⟨false, false, 0⟩, true, false, [Event.SquelchOpened, Event.SquelchClosed]⟩ := by
  decide

/-- C1 (amended): in the 300 ms / 30 ms voice-gate-off scenario with one
loud frame followed by silent frames, the gate opens on frame 1, stays
open through frame 10 (elapsed reaches 300), and closes at frame 11 with
`SquelchClosed`; frames 1 through 11 are all written to the sink — the
closing frame 11 is still written, because the sink write precedes the
hang-timer check — and a 12th silent frame is not written. -/
theorem scenario_run_amended :
    run cfgNoVad (mkRat 1 2) initState
        ((loudFrame, false) :: List.replicate 11 (silentFrame, false)) =
      .ok (⟨false, false, 300⟩,
        (true, [Event.SquelchOpened]) ::
          (List.replicate 9 ((true : Bool), ([] : List Event)) ++
            [(true, [Event.SquelchClosed]), (false, [])])) := by
  decide

/-- Counterexample to C1 as stated: running the scenario's 11 frames,
frame 11 is written (its emit flag is true) in the same step that logs
`SquelchClosed`, contradicting "frame 11 is not written". -/
theorem scenario_run_cex :
    run cfgNoVad (mkRat 1 2) initState
        ((loudFrame, false) :: List.replicate 10 (silentFrame, false)) =
      .ok (⟨false, false, 300⟩,
        (true, [Event.SquelchOpened]) ::
          (List.replicate 9 ((true : Bool), ([] : List Event)) ++
            [(true, [Event.SquelchClosed])])) := by
  decide

lemma stepPure_preserves_voice_open (cfg : Config) (sp : Bool) (s : GateState) (sq : Bool)
    (hs : s.hasVoice = true → s.sqlOpen = true) :
    (stepPure cfg sp s sq).state.hasVoice = true →
      (stepPure cfg sp s sq).state.sqlOpen = true := by
  obtain ⟨hv, so, time⟩ := s
  unfold stepPure
  cases sq <;> cases so <;> cases hv <;> simp_all <;> split_ifs <;> simp_all

/-- C10: in every state reachable from the session-start state by any
sequence of frames and classifier answers, voice confirmation implies
the gate is open — a voice-confirmed-but-closed state never occurs. -/
theorem reachable_voice_open (cfg : Config) (t : ℚ) (s : GateState)
    (hreach : Reachable cfg t s) (hv : s.hasVoice = true) : s.sqlOpen = true := by
  revert hv
  induction hreach with
  | init =>
    intro hv
    simp [initState] at hv
  | @next s' speech frame r hprev hstep ih =>
    intro hv
    cases hsq : squelch frame t with
    | error e =>
      rw [step_error cfg t speech s' frame e hsq] at hstep
      simp at hstep
    | ok sq =>
      rw [step_ok cfg t speech s' frame sq hsq] at hstep
      obtain rfl : r = stepPure cfg speech s' sq := (Except.ok.inj hstep).symm
      exact stepPure_preserves_voice_open cfg speech s' sq ih hv

/-- Witness for `reachable_voice_open` at a concrete reachable
voice-confirmed state. -/
theorem reachable_voice_open_witness : (⟨true, true, 30⟩ : GateState).sqlOpen = true :=
  reachable_voice_open cfgVad (mkRat 1 2) ⟨true, true, 30⟩
    (Reachable.next Reachable.init
      (show step cfgVad (mkRat 1 2) true initState loudFrame =
        .ok ⟨⟨true, true, 30⟩, true, true, [Event.SquelchOpened, Event.VoiceDetected]⟩
        by decide))
    rfl

end SquelchRecorder
